import Mathlib

/-!
Verification of the lexical analyzer in `lexical_analyzer.py`.

The source text is embedded as a `List Char`.  Every function below is a
direct translation of the corresponding Python method; machine-level
details that the claims depend on (post-advance offsets, forward regex
search, catalog order) are reproduced exactly as the code has them.
-/

/-- The `LexemeType` enumeration from the source, one constructor per member. -/
inductive LexemeType where
  | Dim | Print | Const | Option | Explicit | Set | If | Else | Sub | End | For | Each | Next
  | Plus | Minus | Multiply | Exponent | Divide | IntegerDivide | Mod
  | Not | And | Or | Xor | AndAlso | OrElse
  | Assign | Semicolon | DoubleQuote | Dot | Comma | OpeningBracket | ClosingBracket
  | Identifier | Number
  deriving DecidableEq, Repr

/-- The string value of each enum member (`LexemeType.<member>.value` in the code).
For static lexemes this is the literal to match; for the two dynamic lexemes it
is the regular-expression text, kept here only for completeness. -/
def LexemeType.value : LexemeType → String
  | .Dim => "Dim"
  | .Print => "Print"
  | .Const => "Const"
  | .Option => "Option"
  | .Explicit => "Explicit"
  | .Set => "Set"
  | .If => "If"
  | .Else => "Else"
  | .Sub => "Sub"
  | .End => "End"
  | .For => "For"
  | .Each => "Each"
  | .Next => "Next"
  | .Plus => "+"
  | .Minus => "-"
  | .Multiply => "*"
  | .Exponent => "^"
  | .Divide => "/"
  | .IntegerDivide => "\\"
  | .Mod => "Mod"
  | .Not => "Not"
  | .And => "And"
  | .Or => "Or"
  | .Xor => "Xor"
  | .AndAlso => "AndAlso"
  | .OrElse => "OrElse"
  | .Assign => "="
  | .Semicolon => ";"
  | .DoubleQuote => "\""
  | .Dot => "."
  | .Comma => ","
  | .OpeningBracket => "("
  | .ClosingBracket => ")"
  | .Identifier => "[a-zA-Z_][a-zA-Z0-9_]*"
  | .Number => "(0|[1-9][0-9]*)"

/-- The `Lexeme` class: kind, matched text, recorded offset and length. -/
structure Lexeme where
  lexeme_type : LexemeType
  lexeme_value : List Char
  offset : Nat
  length : Nat
  deriving DecidableEq, Repr

/-- A `StaticLexemeDefinition`: a lexeme type together with its keyword flag. -/
structure StaticLexemeDefinition where
  lexeme_type : LexemeType
  is_keyword : Bool
  deriving DecidableEq, Repr

/-- The definition's `representation` property: the enum member's literal text. -/
def StaticLexemeDefinition.representation (d : StaticLexemeDefinition) : List Char :=
  d.lexeme_type.value.toList

/-- The module-level `static_lexeme_definitions` table, in the exact order of
the source (note: the keyword block registers `For`, `Each`, `End` and omits
`Sub` and `Next`, exactly as the code does). -/
def static_lexeme_definitions : List StaticLexemeDefinition :=
  [⟨.Dim, true⟩, ⟨.Print, true⟩, ⟨.Const, true⟩, ⟨.Option, true⟩, ⟨.Explicit, true⟩,
   ⟨.Set, true⟩, ⟨.If, true⟩, ⟨.Else, true⟩, ⟨.For, true⟩, ⟨.Each, true⟩, ⟨.End, true⟩,
   ⟨.Plus, false⟩, ⟨.Minus, false⟩, ⟨.Multiply, false⟩, ⟨.Exponent, false⟩,
   ⟨.Divide, false⟩, ⟨.IntegerDivide, false⟩, ⟨.Mod, false⟩,
   ⟨.Not, false⟩, ⟨.And, false⟩, ⟨.Or, false⟩, ⟨.Xor, false⟩,
   ⟨.AndAlso, false⟩, ⟨.OrElse, false⟩,
   ⟨.Assign, false⟩, ⟨.Semicolon, false⟩, ⟨.DoubleQuote, false⟩, ⟨.Dot, false⟩,
   ⟨.Comma, false⟩, ⟨.OpeningBracket, false⟩, ⟨.ClosingBracket, false⟩]

/-- The whitespace set `LexicalAnalyzer.space_chars`. -/
def space_chars : List Char := [' ', '\n', '\r', '\t']

/-- Python's `source[offset : offset + length]` slice on the embedded source. -/
def extractAt (src : List Char) (off len : Nat) : List Char :=
  (src.drop off).take len

/-- Python's `str.isalnum` restricted to ASCII (the only characters the
analyzer's inputs in this development contain). -/
def pyIsAlnum (c : Char) : Bool :=
  c.isAlphanum

/-- The keyword trailing-boundary test: the character at position `i`
(`source[offset + length]` in the code) is an underscore or alphanumeric. -/
def nextCharBlocks (src : List Char) (i : Nat) : Bool :=
  match src[i]? with
  | some c => c == '_' || pyIsAlnum c
  | none => false

/-- One iteration of the `for` loop in `process_static_lexeme`: try a single
static definition at `off`.  The two `continue` branches of the code become
`none` (no match within the remaining source, or a keyword whose span is
followed by an identifier character); on success the code first advances
`self.offset` by the literal's length and only then builds the `Lexeme`, so
the recorded offset is the post-advance cursor `off + length`. -/
def tryStaticDef (src : List Char) (off : Nat) (d : StaticLexemeDefinition) :
    Option (Lexeme × Nat) :=
  if src.length < off + d.representation.length ∨
      extractAt src off d.representation.length ≠ d.representation then
    none
  else if off + d.representation.length < src.length ∧ d.is_keyword = true ∧
      nextCharBlocks src (off + d.representation.length) = true then
    none
  else
    some (⟨d.lexeme_type, d.representation, off + d.representation.length,
           d.representation.length⟩,
          off + d.representation.length)

/-- The `for lexeme_def in static_lexeme_definitions` loop: first definition
that does not `continue` wins. -/
def processStaticAux (src : List Char) (off : Nat) :
    List StaticLexemeDefinition → Option (Lexeme × Nat)
  | [] => none
  | d :: rest =>
    match tryStaticDef src off d with
    | some r => some r
    | none => processStaticAux src off rest

/-- `LexicalAnalyzer.process_static_lexeme`, returning the lexeme together with
the updated cursor offset (the mutation of `self.offset` made explicit). -/
def process_static_lexeme (src : List Char) (off : Nat) : Option (Lexeme × Nat) :=
  processStaticAux src off static_lexeme_definitions

/-- Character class `[a-zA-Z_]` of the identifier pattern. -/
def isIdentStart (c : Char) : Bool :=
  decide (('a' ≤ c ∧ c ≤ 'z') ∨ ('A' ≤ c ∧ c ≤ 'Z') ∨ c = '_')

/-- Character class `[a-zA-Z0-9_]` of the identifier pattern. -/
def isIdentCont (c : Char) : Bool :=
  isIdentStart c || decide ('0' ≤ c ∧ c ≤ '9')

/-- Character class `[0-9]`. -/
def isDigitCh (c : Char) : Bool :=
  decide ('0' ≤ c ∧ c ≤ '9')

/-- Index of the first character at position `≥ pos` satisfying `p`, if any. -/
def findFirstFrom (p : Char → Bool) (src : List Char) (pos : Nat) : Option Nat :=
  match (src.drop pos).findIdx? p with
  | some i => some (pos + i)
  | none => none

/-- Python `re.search` of the compiled pattern `[a-zA-Z_][a-zA-Z0-9_]*` on
`src` starting at `pos`: the leftmost position whose character can start an
identifier, extended greedily; returns the match span `(start, end)`.  A match
of this pattern exists at a position exactly when its first character is in
`[a-zA-Z_]`, so the leftmost such position is the match start. -/
def identSearch (src : List Char) (pos : Nat) : Option (Nat × Nat) :=
  match findFirstFrom isIdentStart src pos with
  | none => none
  | some s => some (s, s + 1 + ((src.drop (s + 1)).takeWhile isIdentCont).length)

/-- Python `re.search` of the compiled pattern `(0|[1-9][0-9]*)` on `src`
starting at `pos`: the leftmost position holding a digit starts the match; the
alternation tries the branch `0` first, so a leading `'0'` matches as the
one-character span, otherwise `[1-9][0-9]*` extends greedily over digits. -/
def numberSearch (src : List Char) (pos : Nat) : Option (Nat × Nat) :=
  match findFirstFrom isDigitCh src pos with
  | none => none
  | some s =>
    if src[s]? = some '0' then some (s, s + 1)
    else some (s, s + 1 + ((src.drop (s + 1)).takeWhile isDigitCh).length)

/-- `LexicalAnalyzer.process_dynamic_lexeme`: the loop over
`dynamic_lexeme_definitions = [Identifier, Number]` unrolled in that fixed
order.  As in the code, the match need not start at the cursor: the cursor is
advanced by `match_length = span[1] - span[0]` from its old value (not to the
end of the span), the lexeme text is `m.group(0)` (the text of the span), and
the recorded offset is the post-advance cursor. -/
def process_dynamic_lexeme (src : List Char) (off : Nat) : Option (Lexeme × Nat) :=
  match identSearch src off with
  | some (s, e) =>
    some (⟨.Identifier, extractAt src s (e - s), off + (e - s), e - s⟩, off + (e - s))
  | none =>
    match numberSearch src off with
    | some (s, e) =>
      some (⟨.Number, extractAt src s (e - s), off + (e - s), e - s⟩, off + (e - s))
    | none => none

/-- `LexicalAnalyzer.skip_spaces`: advance the cursor past the maximal run of
whitespace characters starting at it (a no-op at end of input). -/
def skipSpaces (src : List Char) (off : Nat) : Nat :=
  off + ((src.drop off).takeWhile (fun c => space_chars.contains c)).length

/-- Result of a run of `LexicalAnalyzer.parse`: either a normal return with
the accumulated `self.lexemes`, or an `UnknownLexemeException` carrying its
`pos` while `self.lexemes` still holds the tokens collected before the raise. -/
inductive ParseResult where
  | ok (lexemes : List Lexeme)
  | err (lexemes : List Lexeme) (pos : Nat)
  deriving DecidableEq, Repr

/-- The token list carried by either outcome (`analyzer.lexemes`). -/
def ParseResult.tokens : ParseResult → List Lexeme
  | .ok t => t
  | .err t _ => t

/-- The `while` loop of `LexicalAnalyzer.parse` with an explicit fuel counter.
Each iteration: check `in_bounds`, `skip_spaces`, re-check `in_bounds`, try
the static matcher then the dynamic matcher, raise on double failure, append
on success.  Fuel `src.length + 1` always suffices because every appended
lexeme strictly advances the cursor (proved below). -/
def parseLoop (src : List Char) : Nat → Nat → List Lexeme → ParseResult
  | 0, _, acc => .ok acc
  | fuel + 1, off, acc =>
    if off < src.length then
      let p := skipSpaces src off
      if p < src.length then
        match process_static_lexeme src p with
        | some (lex, off') => parseLoop src fuel off' (acc ++ [lex])
        | none =>
          match process_dynamic_lexeme src p with
          | some (lex, off') => parseLoop src fuel off' (acc ++ [lex])
          | none => .err acc p
      else .ok acc
    else .ok acc

/-- `LexicalAnalyzer(source).parse()`: run the loop from offset 0 with an
empty token list. -/
def parse (src : List Char) : ParseResult :=
  parseLoop src (src.length + 1) 0 []

/-- Unfolding equation for one loop iteration (definitional). -/
theorem parseLoop_succ (src : List Char) (fuel off : Nat) (acc : List Lexeme) :
    parseLoop src (fuel + 1) off acc =
      if off < src.length then
        if skipSpaces src off < src.length then
          match process_static_lexeme src (skipSpaces src off) with
          | some (lex, off') => parseLoop src fuel off' (acc ++ [lex])
          | none =>
            match process_dynamic_lexeme src (skipSpaces src off) with
            | some (lex, off') => parseLoop src fuel off' (acc ++ [lex])
            | none => .err acc (skipSpaces src off)
        else .ok acc
      else .ok acc := rfl

/-- `skip_spaces` never moves the cursor backwards. -/
theorem skipSpaces_le (src : List Char) (off : Nat) : off ≤ skipSpaces src off :=
  Nat.le_add_right _ _

/-- A successful static try advances the cursor by exactly the literal's length. -/
theorem tryStaticDef_some {src : List Char} {off : Nat} {d : StaticLexemeDefinition}
    {lex : Lexeme} {off₂ : Nat} (h : tryStaticDef src off d = some (lex, off₂)) :
    off₂ = off + d.representation.length := by
  unfold tryStaticDef at h
  split at h
  · exact absurd h (by simp)
  · split at h
    · exact absurd h (by simp)
    · simp only [Option.some.injEq, Prod.mk.injEq] at h
      exact h.2.symm

/-- Every literal in the static catalog is non-empty. -/
theorem static_reps_pos :
    ∀ d ∈ static_lexeme_definitions, 0 < d.representation.length := by decide

/-- The static loop only ever advances the cursor strictly, as long as every
definition it is given has a non-empty literal. -/
theorem processStaticAux_advance {src : List Char} {off : Nat} :
    ∀ {ds : List StaticLexemeDefinition},
      (∀ d ∈ ds, 0 < d.representation.length) →
      ∀ {lex : Lexeme} {off' : Nat},
        processStaticAux src off ds = some (lex, off') → off < off' := by
  intro ds
  induction ds with
  | nil => intro _ lex off' h; simp [processStaticAux] at h
  | cons d rest ih =>
    intro hpos lex off' h
    cases htry : tryStaticDef src off d with
    | some r =>
      obtain ⟨l2, o2⟩ := r
      simp only [processStaticAux, htry] at h
      obtain ⟨h1, h2⟩ := h
      have := tryStaticDef_some htry
      have hd := hpos d (List.mem_cons_self d rest)
      omega
    | none =>
      simp only [processStaticAux, htry] at h
      exact ih (fun d' hd' => hpos d' (List.mem_cons_of_mem _ hd')) h

/-- A successful static match strictly advances the cursor. -/
theorem process_static_advance {src : List Char} {off : Nat} {lex : Lexeme} {off' : Nat}
    (h : process_static_lexeme src off = some (lex, off')) : off < off' :=
  processStaticAux_advance static_reps_pos h

/-- An identifier match span is non-empty. -/
theorem identSearch_some {src : List Char} {pos s e : Nat}
    (h : identSearch src pos = some (s, e)) : s < e := by
  unfold identSearch at h
  cases hf : findFirstFrom isIdentStart src pos with
  | none => rw [hf] at h; exact absurd h (by simp)
  | some s0 =>
    rw [hf] at h
    simp only [Option.some.injEq, Prod.mk.injEq] at h
    omega

/-- A number match span is non-empty. -/
theorem numberSearch_some {src : List Char} {pos s e : Nat}
    (h : numberSearch src pos = some (s, e)) : s < e := by
  unfold numberSearch at h
  cases hf : findFirstFrom isDigitCh src pos with
  | none => rw [hf] at h; exact absurd h (by simp)
  | some s0 =>
    rw [hf] at h
    have h' : (if src[s0]? = some '0' then some (s0, s0 + 1)
        else some (s0, s0 + 1 + ((src.drop (s0 + 1)).takeWhile isDigitCh).length)) =
          some (s, e) := h
    split at h' <;>
      (simp only [Option.some.injEq, Prod.mk.injEq] at h'; omega)

/-- A successful dynamic match strictly advances the cursor. -/
theorem process_dynamic_advance {src : List Char} {off : Nat} {lex : Lexeme} {off' : Nat}
    (h : process_dynamic_lexeme src off = some (lex, off')) : off < off' := by
  unfold process_dynamic_lexeme at h
  cases hi : identSearch src off with
  | some se =>
    obtain ⟨s, e⟩ := se
    rw [hi] at h
    simp only [Option.some.injEq, Prod.mk.injEq] at h
    have := identSearch_some hi
    omega
  | none =>
    rw [hi] at h
    cases hn : numberSearch src off with
    | some se =>
      obtain ⟨s, e⟩ := se
      rw [hn] at h
      simp only [Option.some.injEq, Prod.mk.injEq] at h
      have := numberSearch_some hn
      omega
    | none => rw [hn] at h; exact absurd h (by simp)

/-- A static match found after whitespace skipping lands strictly beyond the
pre-skip cursor. -/
theorem process_static_skip_advance {src : List Char} {off : Nat} {lex : Lexeme}
    {off' : Nat} (h : process_static_lexeme src (skipSpaces src off) = some (lex, off')) :
    off < off' :=
  Nat.lt_of_le_of_lt (skipSpaces_le src off) (process_static_advance h)

/-- A dynamic match found after whitespace skipping lands strictly beyond the
pre-skip cursor. -/
theorem process_dynamic_skip_advance {src : List Char} {off : Nat} {lex : Lexeme}
    {off' : Nat} (h : process_dynamic_lexeme src (skipSpaces src off) = some (lex, off')) :
    off < off' :=
  Nat.lt_of_le_of_lt (skipSpaces_le src off) (process_dynamic_advance h)

/-- Big-step relational semantics of the `parse` loop: `Loop src off acc r`
holds when a run of the loop body started at cursor `off` with token list
`acc` ends with result `r`.  Each constructor mirrors one control path of the
`while` loop in the source. -/
inductive Loop (src : List Char) : Nat → List Lexeme → ParseResult → Prop where
  | outOfInput {off : Nat} {acc : List Lexeme} :
      src.length ≤ off → Loop src off acc (.ok acc)
  | trailingSpaces {off : Nat} {acc : List Lexeme} :
      off < src.length → src.length ≤ skipSpaces src off → Loop src off acc (.ok acc)
  | staticStep {off p off' : Nat} {acc : List Lexeme} {lex : Lexeme} {r : ParseResult} :
      off < src.length → skipSpaces src off = p → p < src.length →
      process_static_lexeme src p = some (lex, off') →
      Loop src off' (acc ++ [lex]) r → Loop src off acc r
  | dynamicStep {off p off' : Nat} {acc : List Lexeme} {lex : Lexeme} {r : ParseResult} :
      off < src.length → skipSpaces src off = p → p < src.length →
      process_static_lexeme src p = none →
      process_dynamic_lexeme src p = some (lex, off') →
      Loop src off' (acc ++ [lex]) r → Loop src off acc r
  | failStep {off p : Nat} {acc : List Lexeme} :
      off < src.length → skipSpaces src off = p → p < src.length →
      process_static_lexeme src p = none →
      process_dynamic_lexeme src p = none → Loop src off acc (.err acc p)

/-- Any derivable run result is the value the loop function computes, for
every sufficient amount of fuel. -/
theorem loop_eq_parseLoop {src : List Char} {off : Nat} {acc : List Lexeme}
    {r : ParseResult} (h : Loop src off acc r) :
    ∀ fuel, src.length - off < fuel → parseLoop src fuel off acc = r := by
  induction h with
  | outOfInput hle =>
    intro fuel hfuel
    cases fuel with
    | zero => rfl
    | succ f => rw [parseLoop_succ, if_neg (Nat.not_lt.mpr hle)]
  | trailingSpaces hoff hskip =>
    intro fuel hfuel
    cases fuel with
    | zero => rfl
    | succ f => rw [parseLoop_succ, if_pos hoff, if_neg (Nat.not_lt.mpr hskip)]
  | staticStep hoff hp hplt hstatic hloop ih =>
    intro fuel hfuel
    cases fuel with
    | zero => exact absurd hfuel (Nat.not_lt_zero _)
    | succ f =>
      subst hp
      rw [parseLoop_succ, if_pos hoff, if_pos hplt, hstatic]
      exact ih f (by have h2 := process_static_skip_advance hstatic; omega)
  | dynamicStep hoff hp hplt hstatic hdyn hloop ih =>
    intro fuel hfuel
    cases fuel with
    | zero => exact absurd hfuel (Nat.not_lt_zero _)
    | succ f =>
      subst hp
      rw [parseLoop_succ, if_pos hoff, if_pos hplt, hstatic, hdyn]
      exact ih f (by have h2 := process_dynamic_skip_advance hdyn; omega)
  | failStep hoff hp hplt hstatic hdyn =>
    intro fuel hfuel
    cases fuel with
    | zero => exact absurd hfuel (Nat.not_lt_zero _)
    | succ f =>
      subst hp
      rw [parseLoop_succ, if_pos hoff, if_pos hplt, hstatic, hdyn]

/-- The loop function's result is always a derivable run (totality of the
relational semantics, hence termination of the scan). -/
theorem parseLoop_loop (src : List Char) :
    ∀ (fuel off : Nat) (acc : List Lexeme), src.length - off < fuel →
      Loop src off acc (parseLoop src fuel off acc) := by
  intro fuel
  induction fuel with
  | zero => intro off acc h; exact absurd h (Nat.not_lt_zero _)
  | succ f ih =>
    intro off acc hfuel
    rw [parseLoop_succ]
    by_cases hoff : off < src.length
    · rw [if_pos hoff]
      by_cases hp : skipSpaces src off < src.length
      · rw [if_pos hp]
        cases hstatic : process_static_lexeme src (skipSpaces src off) with
        | some pr =>
          obtain ⟨lex, off'⟩ := pr
          exact Loop.staticStep hoff rfl hp hstatic
            (ih off' (acc ++ [lex]) (by
              have h2 := process_static_skip_advance hstatic
              omega))
        | none =>
          cases hdyn : process_dynamic_lexeme src (skipSpaces src off) with
          | some pr =>
            obtain ⟨lex, off'⟩ := pr
            exact Loop.dynamicStep hoff rfl hp hstatic hdyn
              (ih off' (acc ++ [lex]) (by
                have h2 := process_dynamic_skip_advance hdyn
                omega))
          | none => exact Loop.failStep hoff rfl hp hstatic hdyn
      · rw [if_neg hp]
        exact Loop.trailingSpaces hoff (Nat.le_of_not_lt hp)
    · rw [if_neg hoff]
      exact Loop.outOfInput (Nat.le_of_not_lt hoff)

/-- Cursor offsets the scan loop actually reaches at the top of an iteration:
the run starts at 0, and each successful match (static or dynamic) moves the
loop head to the matcher's updated offset. -/
inductive Reaches (src : List Char) : Nat → Prop where
  | init : Reaches src 0
  | staticStep {off p off' : Nat} {lex : Lexeme} :
      Reaches src off → off < src.length → skipSpaces src off = p → p < src.length →
      process_static_lexeme src p = some (lex, off') → Reaches src off'
  | dynamicStep {off p off' : Nat} {lex : Lexeme} :
      Reaches src off → off < src.length → skipSpaces src off = p → p < src.length →
      process_static_lexeme src p = none →
      process_dynamic_lexeme src p = some (lex, off') → Reaches src off'

/-- The failure condition of one loop iteration at loop-head offset `off`:
the cursor is in bounds, after whitespace skipping it is still in bounds, and
neither the static nor the dynamic matcher produces a lexeme there. -/
def noMatchAt (src : List Char) (off : Nat) : Prop :=
  off < src.length ∧ skipSpaces src off < src.length ∧
  process_static_lexeme src (skipSpaces src off) = none ∧
  process_dynamic_lexeme src (skipSpaces src off) = none

/-- If the loop, started at a reached offset, ends in an error, then the error
position is the post-skip cursor of a reached offset satisfying the failure
condition. -/
theorem parseLoop_err_char {src : List Char} :
    ∀ (fuel : Nat) {off : Nat} {acc toks : List Lexeme} {p : Nat},
      src.length - off < fuel → Reaches src off →
      parseLoop src fuel off acc = .err toks p →
      ∃ off₀, Reaches src off₀ ∧ noMatchAt src off₀ ∧ skipSpaces src off₀ = p := by
  intro fuel
  induction fuel with
  | zero => intro off acc toks p h _ _; exact absurd h (Nat.not_lt_zero _)
  | succ f ih =>
    intro off acc toks p hfuel hreach heq
    rw [parseLoop_succ] at heq
    by_cases hoff : off < src.length
    · rw [if_pos hoff] at heq
      by_cases hplt : skipSpaces src off < src.length
      · rw [if_pos hplt] at heq
        cases hstatic : process_static_lexeme src (skipSpaces src off) with
        | some pr =>
          obtain ⟨lex, off'⟩ := pr
          rw [hstatic] at heq
          exact ih (by have h2 := process_static_skip_advance hstatic; omega)
            (Reaches.staticStep hreach hoff rfl hplt hstatic) heq
        | none =>
          rw [hstatic] at heq
          cases hdyn : process_dynamic_lexeme src (skipSpaces src off) with
          | some pr =>
            obtain ⟨lex, off'⟩ := pr
            rw [hdyn] at heq
            exact ih (by have h2 := process_dynamic_skip_advance hdyn; omega)
              (Reaches.dynamicStep hreach hoff rfl hplt hstatic hdyn) heq
          | none =>
            rw [hdyn] at heq
            injection heq with h1 h2
            exact ⟨off, hreach, ⟨hoff, hplt, hstatic, hdyn⟩, h2⟩
      · rw [if_neg hplt] at heq
        exact absurd heq (by simp)
    · rw [if_neg hoff] at heq
      exact absurd heq (by simp)

/-- From any reached loop-head offset, the whole run's result equals the loop
run restarted there with the tokens collected so far. -/
theorem reaches_parse_eq {src : List Char} {off : Nat} (h : Reaches src off) :
    ∃ acc fuel, src.length - off < fuel ∧ parse src = parseLoop src fuel off acc := by
  induction h with
  | init => exact ⟨[], src.length + 1, by omega, rfl⟩
  | staticStep hreach hoff hp hplt hstatic ih =>
    rename_i off0 p0 off0' lex0
    obtain ⟨acc, fuel, hfuel, heq⟩ := ih
    cases fuel with
    | zero => exact absurd hfuel (Nat.not_lt_zero _)
    | succ f =>
      subst hp
      have hadv := process_static_skip_advance hstatic
      refine ⟨acc ++ [lex0], f, by omega, ?_⟩
      rw [heq, parseLoop_succ, if_pos hoff, if_pos hplt, hstatic]
  | dynamicStep hreach hoff hp hplt hstatic hdyn ih =>
    rename_i off0 p0 off0' lex0
    obtain ⟨acc, fuel, hfuel, heq⟩ := ih
    cases fuel with
    | zero => exact absurd hfuel (Nat.not_lt_zero _)
    | succ f =>
      subst hp
      have hadv := process_dynamic_skip_advance hdyn
      refine ⟨acc ++ [lex0], f, by omega, ?_⟩
      rw [heq, parseLoop_succ, if_pos hoff, if_pos hplt, hstatic, hdyn]

/-- Prepend previously collected tokens to a run result. -/
def ParseResult.prepend (acc : List Lexeme) : ParseResult → ParseResult
  | .ok t => .ok (acc ++ t)
  | .err t p => .err (acc ++ t) p

theorem prepend_prepend (a b : List Lexeme) (r : ParseResult) :
    (r.prepend b).prepend a = r.prepend (a ++ b) := by
  cases r <;> simp [ParseResult.prepend]

/-- The loop's accumulator is carried through to the result untouched: the
result (success or error) is the result of an empty-accumulator run with the
incoming tokens prepended, so earlier tokens are never discarded. -/
theorem parseLoop_acc (src : List Char) :
    ∀ (fuel off : Nat) (acc : List Lexeme),
      parseLoop src fuel off acc = (parseLoop src fuel off []).prepend acc := by
  intro fuel
  induction fuel with
  | zero => intro off acc; simp [parseLoop, ParseResult.prepend]
  | succ f ih =>
    intro off acc
    rw [parseLoop_succ, parseLoop_succ]
    by_cases hoff : off < src.length
    · rw [if_pos hoff, if_pos hoff]
      by_cases hp : skipSpaces src off < src.length
      · rw [if_pos hp, if_pos hp]
        cases hstatic : process_static_lexeme src (skipSpaces src off) with
        | some pr =>
          obtain ⟨lex, off'⟩ := pr
          show parseLoop src f off' (acc ++ [lex]) =
            (parseLoop src f off' ([] ++ [lex])).prepend acc
          rw [List.nil_append, ih off' (acc ++ [lex]), ih off' [lex], prepend_prepend]
        | none =>
          cases hdyn : process_dynamic_lexeme src (skipSpaces src off) with
          | some pr =>
            obtain ⟨lex, off'⟩ := pr
            show parseLoop src f off' (acc ++ [lex]) =
              (parseLoop src f off' ([] ++ [lex])).prepend acc
            rw [List.nil_append, ih off' (acc ++ [lex]), ih off' [lex], prepend_prepend]
          | none =>
            show ParseResult.err acc _ = (ParseResult.err [] _).prepend acc
            simp [ParseResult.prepend]
      · rw [if_neg hp, if_neg hp]; simp [ParseResult.prepend]
    · rw [if_neg hoff, if_neg hoff]; simp [ParseResult.prepend]

/-- Claim C1: the code records the post-advance cursor as the token offset,
not the start of the matched span.  Parsing `"Dim"` yields a token with
`offset = 3` and `length = 3`, and the slice `source[3 : 6]` is empty rather
than `"Dim"`, so `source[offset : offset + length] == text` fails. -/
theorem token_records_post_advance_offset :
    parse (String.toList "Dim") = .ok [⟨.Dim, ['D', 'i', 'm'], 3, 3⟩]
    ∧ extractAt (String.toList "Dim") 3 3 = ([] : List Char) := by decide

/-- Claim C2: tokenizing `"Dim x @ 1"` does NOT raise `UnknownLexeme` at the
`@`: the dynamic matcher searches forward past the `@`, finds the `1`,
advances the cursor only by the match length, and the run succeeds with the
`1` emitted twice. -/
theorem dim_x_at_one_no_error :
    parse (String.toList "Dim x @ 1") =
      .ok [⟨.Dim, ['D', 'i', 'm'], 3, 3⟩, ⟨.Identifier, ['x'], 5, 1⟩,
           ⟨.Number, ['1'], 7, 1⟩, ⟨.Number, ['1'], 9, 1⟩] := by decide

/-- Claim C3: tokenizing `"If x > 0 Then"` does NOT raise `UnknownLexeme` at
the `>`: the dynamic matcher searches forward past `> 0 ` to `Then`, advances
only by the match length, and the run succeeds with `Then` emitted twice. -/
theorem if_gt_zero_then_no_error :
    parse (String.toList "If x > 0 Then") =
      .ok [⟨.If, ['I', 'f'], 2, 2⟩, ⟨.Identifier, ['x'], 4, 1⟩,
           ⟨.Identifier, ['T', 'h', 'e', 'n'], 9, 4⟩,
           ⟨.Identifier, ['T', 'h', 'e', 'n'], 13, 4⟩] := by decide

/-- Claim C4: catalog literals are not all reproduced with their catalog
kinds: `Sub` and `Next` are absent from `static_lexeme_definitions`, so they
lex as `Identifier`, and `OrElse` is split by the earlier non-keyword literal
`Or` into `Or` followed by `Else`. -/
theorem sub_next_orelse_not_catalog_matched :
    parse (String.toList "Sub") = .ok [⟨.Identifier, ['S', 'u', 'b'], 3, 3⟩]
    ∧ parse (String.toList "Next") = .ok [⟨.Identifier, ['N', 'e', 'x', 't'], 4, 4⟩]
    ∧ parse (String.toList "OrElse") =
        .ok [⟨.Or, ['O', 'r'], 2, 2⟩, ⟨.Else, ['E', 'l', 's', 'e'], 6, 4⟩] := by decide

/-- Claim C5: tokenizing `"Forecast = 1"` yields an `Identifier` token with
text `Forecast` (and no `For` keyword token); in general, every keyword
definition whose literal matches at the cursor but whose span is immediately
followed by an alphanumeric or underscore character is rejected and matching
continues with the next definitions of the catalog. -/
theorem keyword_boundary_rule :
    (parse (String.toList "Forecast = 1") =
      .ok [⟨.Identifier, ['F', 'o', 'r', 'e', 'c', 'a', 's', 't'], 8, 8⟩,
           ⟨.Assign, ['='], 10, 1⟩, ⟨.Number, ['1'], 12, 1⟩])
    ∧ (∀ (src : List Char) (off : Nat) (d : StaticLexemeDefinition)
        (ds : List StaticLexemeDefinition),
        d.is_keyword = true →
        extractAt src off d.representation.length = d.representation →
        off + d.representation.length < src.length →
        nextCharBlocks src (off + d.representation.length) = true →
        processStaticAux src off (d :: ds) = processStaticAux src off ds) := by
  constructor
  · decide
  · intro src off d ds hkw hmatch hlt hblk
    have hc1 : ¬(src.length < off + d.representation.length ∨
        extractAt src off d.representation.length ≠ d.representation) := by
      push_neg
      exact ⟨by omega, hmatch⟩
    have hnone : tryStaticDef src off d = none := by
      unfold tryStaticDef
      rw [if_neg hc1, if_pos ⟨hlt, hkw, hblk⟩]
    simp [processStaticAux, hnone]

/-- Witness for C5 at the concrete input: the keyword `For` matching at the
start of `"Forecast"` is rejected and the static loop falls through. -/
theorem keyword_boundary_rule_witness :
    processStaticAux (String.toList "Forecast") 0 [⟨LexemeType.For, true⟩] =
      processStaticAux (String.toList "Forecast") 0 [] :=
  keyword_boundary_rule.2 (String.toList "Forecast") 0 ⟨LexemeType.For, true⟩ []
    (by decide) (by decide) (by decide) (by decide)

/-- Claim C6: `"0"` tokenizes as the single `Number` token `"0"`, and `"007"`
does not tokenize as one `Number` token covering all three characters — it
yields three one-character `Number` tokens, because the pattern
`0|[1-9][0-9]*` matches a bare `0` without following digits. -/
theorem number_literal_policy :
    parse (String.toList "0") = .ok [⟨.Number, ['0'], 1, 1⟩]
    ∧ parse (String.toList "007") =
        .ok [⟨.Number, ['0'], 1, 1⟩, ⟨.Number, ['0'], 2, 1⟩, ⟨.Number, ['7'], 3, 1⟩]
    ∧ (parse (String.toList "007")).tokens.length = 3 := by decide

/-- Claim C7: `"Dim count = 0"` tokenizes successfully as exactly the four
tokens `Dim`, `Identifier "count"`, `Assign`, `Number "0"`, in that order. -/
theorem dim_count_assign_zero :
    parse (String.toList "Dim count = 0") =
      .ok [⟨.Dim, ['D', 'i', 'm'], 3, 3⟩,
           ⟨.Identifier, ['c', 'o', 'u', 'n', 't'], 9, 5⟩,
           ⟨.Assign, ['='], 11, 1⟩, ⟨.Number, ['0'], 13, 1⟩]
    ∧ (parse (String.toList "Dim count = 0")).tokens.map
        (fun l => (l.lexeme_type, l.lexeme_value)) =
      [(.Dim, ['D', 'i', 'm']), (.Identifier, ['c', 'o', 'u', 'n', 't']),
       (.Assign, ['=']), (.Number, ['0'])] := by decide

/-- Claim C8: the run ends in `UnknownLexeme` iff some reached loop-head
offset satisfies the failure condition (in bounds after whitespace skipping,
no static match there, no dynamic occurrence at or after it); the error
carries exactly that post-skip offset; and the token list carried out with
the error is exactly the previously accumulated tokens followed by the ones
matched since — partial results are retained, never discarded. -/
theorem unknown_lexeme_characterization (src : List Char) :
    ((∃ toks p, parse src = .err toks p) ↔ ∃ off, Reaches src off ∧ noMatchAt src off)
    ∧ (∀ toks p, parse src = .err toks p →
        p < src.length ∧ process_static_lexeme src p = none ∧
        process_dynamic_lexeme src p = none ∧
        ∃ off, Reaches src off ∧ skipSpaces src off = p)
    ∧ (∀ fuel off acc toks p, parseLoop src fuel off acc = .err toks p →
        ∃ tl, toks = acc ++ tl ∧ parseLoop src fuel off [] = .err tl p) := by
  refine ⟨⟨?_, ?_⟩, ?_, ?_⟩
  · rintro ⟨toks, p, heq⟩
    obtain ⟨off₀, h1, h2, h3⟩ :=
      parseLoop_err_char (src.length + 1) (by omega) Reaches.init heq
    exact ⟨off₀, h1, h2⟩
  · rintro ⟨off, hr, hoff, hplt, hstatic, hdyn⟩
    obtain ⟨acc, fuel, hfuel, heq⟩ := reaches_parse_eq hr
    cases fuel with
    | zero => exact absurd hfuel (Nat.not_lt_zero _)
    | succ f =>
      refine ⟨acc, skipSpaces src off, ?_⟩
      rw [heq, parseLoop_succ, if_pos hoff, if_pos hplt, hstatic, hdyn]
  · intro toks p heq
    obtain ⟨off₀, hr, ⟨hoff, hplt, hstatic, hdyn⟩, hskip⟩ :=
      parseLoop_err_char (src.length + 1) (by omega) Reaches.init heq
    subst hskip
    exact ⟨hplt, hstatic, hdyn, off₀, hr, rfl⟩
  · intro fuel off acc toks p heq
    have h := parseLoop_acc src fuel off acc
    rw [heq] at h
    cases hr : parseLoop src fuel off [] with
    | ok t =>
      rw [hr] at h
      exact absurd h (by simp [ParseResult.prepend])
    | err t q =>
      rw [hr] at h
      simp only [ParseResult.prepend, ParseResult.err.injEq] at h
      obtain ⟨h1, h2⟩ := h
      exact ⟨t, h1, by rw [h2]⟩

/-- Witness for C8 at the concrete input `"@"`: the run fails, so a reached
offset satisfying the failure condition exists. -/
theorem unknown_lexeme_characterization_witness :
    ∃ off, Reaches ['@'] off ∧ noMatchAt ['@'] off :=
  (unknown_lexeme_characterization ['@']).1.mp ⟨[], 0, by decide⟩

/-- Claim C9: the analyzer is deterministic — any two runs of the scan loop
on the same source string end with the same result (same token sequence with
the same kinds, texts, offsets and lengths, or the same failure offset). -/
theorem analyzer_deterministic (src : List Char) (r₁ r₂ : ParseResult)
    (h₁ : Loop src 0 [] r₁) (h₂ : Loop src 0 [] r₂) : r₁ = r₂ := by
  have e₁ := loop_eq_parseLoop h₁ (src.length + 1) (by omega)
  have e₂ := loop_eq_parseLoop h₂ (src.length + 1) (by omega)
  rw [← e₁, ← e₂]

/-- Witness for C9 at the concrete input `"x"`: the computed run and an
explicitly derived run agree. -/
theorem analyzer_deterministic_witness :
    parse ['x'] = ParseResult.ok [⟨LexemeType.Identifier, ['x'], 1, 1⟩] :=
  analyzer_deterministic ['x'] _ _
    (parseLoop_loop ['x'] (List.length ['x'] + 1) 0 [] (by decide))
    (Loop.dynamicStep (by decide) rfl (by decide) (by decide)
      (show process_dynamic_lexeme ['x'] (skipSpaces ['x'] 0) =
          some (⟨LexemeType.Identifier, ['x'], 1, 1⟩, 1) by decide)
      (Loop.outOfInput (by decide)))

/-- Claim C10: the cursor is monotone — whitespace skipping never decreases
the offset and every successful static or dynamic match (hence every appended
token) strictly increases it — and every run of the scan loop on a finite
input terminates with a result. -/
theorem offset_monotone_and_terminates :
    (∀ (src : List Char) (off : Nat), off ≤ skipSpaces src off)
    ∧ (∀ (src : List Char) (off : Nat) (lex : Lexeme) (off' : Nat),
        process_static_lexeme src off = some (lex, off') → off < off')
    ∧ (∀ (src : List Char) (off : Nat) (lex : Lexeme) (off' : Nat),
        process_dynamic_lexeme src off = some (lex, off') → off < off')
    ∧ (∀ src : List Char, ∃ r, Loop src 0 [] r) := by
  refine ⟨skipSpaces_le, ?_, ?_, ?_⟩
  · intro src off lex off' h
    exact process_static_advance h
  · intro src off lex off' h
    exact process_dynamic_advance h
  · intro src
    exact ⟨_, parseLoop_loop src (src.length + 1) 0 [] (by omega)⟩

/-- Witness for C10 at concrete inputs: skipping on a one-space source,
a static match on `"Dim"`, a dynamic match on `"x"`, and a terminating run. -/
theorem offset_monotone_and_terminates_witness :
    (0 ≤ skipSpaces [' '] 0) ∧ (0 < 3) ∧ (0 < 1)
    ∧ ∃ r, Loop (String.toList "Dim") 0 [] r :=
  ⟨offset_monotone_and_terminates.1 [' '] 0,
   offset_monotone_and_terminates.2.1 (String.toList "Dim") 0
     ⟨LexemeType.Dim, ['D', 'i', 'm'], 3, 3⟩ 3 (by decide),
   offset_monotone_and_terminates.2.2.1 ['x'] 0
     ⟨LexemeType.Identifier, ['x'], 1, 1⟩ 1 (by decide),
   offset_monotone_and_terminates.2.2.2 (String.toList "Dim")⟩
